import Mathlib

/-!
Verification development for `table_processor.py`.

The file shallowly embeds the table-reconstruction pipeline of the source:

* `process_table_data` (source lines 62-108): sparse cell list → dense grid,
  with the `raw`/`enhanced` processing modes and the catch-all exception
  handler that turns every internal error into `none`;
* `preprocess_image` (source lines 33-59): the image-normalization steps with
  their catch-all exception handler;
* the batch loop of `main` (source lines 174-217): per-file accumulation,
  provenance tagging, and the final `pd.concat`.

Cells come from the recognition response as dictionaries; a field that may be
absent from the dictionary is modelled as an `Option`.  Python code that can
raise is modelled as `Option`/`Except`-valued, the caught exception being the
`none`/`error` branch.
-!-/

namespace TableProcessor

/-- Cell of a recognition response (schema `RowTl`, `ColTl`, `RowSpan`,
`ColSpan`, `Text`).  Every field is optional because the Python code accesses
the cell dictionary with `cell["RowTl"]` (raising `KeyError` when absent) or
`cell.get(key, default)`. -/
structure Cell where
  rowTl : Option Nat
  colTl : Option Nat
  rowSpan : Option Nat
  colSpan : Option Nat
  text : Option String
  deriving DecidableEq, Repr

/-- One `TableDetections` entry: its `Cells` list.  A missing or empty
`Cells` key is the empty list (both are falsy for `table.get("Cells")`). -/
structure Detection where
  cells : List Cell
  deriving DecidableEq, Repr

/-- Dense grid of strings, the Python `grid` / `pd.DataFrame(grid)` value. -/
abbrev Grid := List (List String)

/-- Value `cell["RowTl"] + cell.get("RowSpan", 1)`; `none` models the
`KeyError` raised when `RowTl` is missing. -/
def rowEnd (c : Cell) : Option Nat :=
  c.rowTl.map (fun r => r + c.rowSpan.getD 1)

/-- Value `cell["ColTl"] + cell.get("ColSpan", 1)`; `none` models the
`KeyError` raised when `ColTl` is missing. -/
def colEnd (c : Cell) : Option Nat :=
  c.colTl.map (fun r => r + c.colSpan.getD 1)

/-- Runs the generator `(cell["RowTl"] + cell.get("RowSpan", 1) for cell in
cells)`: `none` as soon as one cell raises. -/
def rowEnds : List Cell → Option (List Nat)
  | [] => some []
  | c :: cs =>
    match rowEnd c, rowEnds cs with
    | some e, some es => some (e :: es)
    | _, _ => none

/-- Runs the generator for the column extents, as `rowEnds`. -/
def colEnds : List Cell → Option (List Nat)
  | [] => some []
  | c :: cs =>
    match colEnd c, colEnds cs with
    | some e, some es => some (e :: es)
    | _, _ => none

/-- Source line 74: `max_row = max(cell["RowTl"] + cell.get("RowSpan", 1) for
cell in table["Cells"])`.  `none` models the exception (a missing key, or
`max` of an empty sequence). -/
def maxRowOf (cells : List Cell) : Option Nat :=
  match rowEnds cells with
  | some (x :: xs) => some (xs.foldl max x)
  | _ => none

/-- Source line 75: `max_col = max(cell["ColTl"] + cell.get("ColSpan", 1) for
cell in table["Cells"])`. -/
def maxColOf (cells : List Cell) : Option Nat :=
  match colEnds cells with
  | some (x :: xs) => some (xs.foldl max x)
  | _ => none

/-- Source line 78: `grid = [["" for _ in range(max_col)] for _ in
range(max_row)]`. -/
def mkGrid (nR nC : Nat) : Grid :=
  List.replicate nR (List.replicate nC "")

/-- Reading `grid[r][c]` (total rendering; all reads the code performs are in
bounds). -/
def getAt (g : Grid) (r c : Nat) : String :=
  (g.getD r []).getD c ""

/-- Assignment `grid[r][c] = text` (out-of-bounds indices leave the grid
unchanged; all writes the code performs are in bounds, see
`span_clipping_is_redundant`). -/
def setAt (g : Grid) (r c : Nat) (t : String) : Grid :=
  g.set r ((g.getD r []).set c t)

/-- Inner loop of source lines 90-91: `for c in range(c0, c0 + n):
grid[r][c] = text`. -/
def fillRow (r : Nat) (t : String) : Nat → Nat → Grid → Grid
  | _, 0, g => g
  | c0, n + 1, g => fillRow r t (c0 + 1) n (setAt g r c0 t)

/-- Outer loop of source lines 89-91: `for r in range(r0, r0 + nr)`, each row
running the inner column loop. -/
def fillRect (t : String) (c0 nc : Nat) : Nat → Nat → Grid → Grid
  | _, 0, g => g
  | r0, n + 1, g => fillRect t c0 nc (r0 + 1) n (fillRow r0 t c0 nc g)

/-- Body of the per-cell loop, source lines 81-91: defaults `RowTl`/`ColTl`
to 0, spans to 1 and `Text` to `""`, and writes the text over the span
rectangle clipped to the grid bounds. -/
def fillCell (nR nC : Nat) (g : Grid) (cell : Cell) : Grid :=
  let r0 := cell.rowTl.getD 0
  let c0 := cell.colTl.getD 0
  let rEnd := min (r0 + cell.rowSpan.getD 1) nR
  let cEnd := min (c0 + cell.colSpan.getD 1) nC
  fillRect (cell.text.getD "") c0 (cEnd - c0) r0 (rEnd - r0) g

/-- All of the grid-filling loop, source lines 81-91. -/
def fillGrid (nR nC : Nat) (cells : List Cell) : Grid :=
  cells.foldl (fillCell nR nC) (mkGrid nR nC)

/-- Source lines 99-100: `df.dropna(how='all').dropna(axis=1,
how='all').reset_index(drop=True)` on `pd.DataFrame(grid)`.  Every grid entry
is a string and `dropna` removes only missing (`NaN`) values, so a row is
all-`NaN` exactly when it has no columns at all; with the all-`NaN` rows gone
every remaining row holds a string in each column, so the column pass removes
nothing, and `reset_index(drop=True)` renumbers rows, the identity in this
list representation. -/
def enhancedClean (g : Grid) : Grid :=
  g.filter (fun row => !row.isEmpty)

/-- Loop body of `process_table_data` for one detection with a non-empty
`Cells` list, source lines 74-102: size computation (which can raise),
grid allocation and fill, and the enhanced-mode post-processing. -/
def processDetection (cells : List Cell) (processing_mode : String) : Option Grid :=
  match maxRowOf cells, maxColOf cells with
  | some nR, some nC =>
    let df := fillGrid nR nC cells
    if processing_mode = "enhanced" then some (enhancedClean df) else some df
  | _, _ => none

/-- Loop of source lines 69-102 building the `tables` list: detections with a
falsy `Cells` entry are skipped (`continue`), and an exception in any
detection aborts the whole call (`none`). -/
def processAll : List Detection → String → Option (List Grid)
  | [], _ => some []
  | d :: rest, processing_mode =>
    if d.cells = [] then processAll rest processing_mode
    else
      match processDetection d.cells processing_mode with
      | none => none
      | some g => (processAll rest processing_mode).map (fun gs => g :: gs)

/-- Embedding of `process_table_data` (source lines 62-108): the falsy check
on `TableDetections`, the per-detection loop, the final `tables[0] if tables
else None`, and the catch-all `except` that returns `None`. -/
def process_table_data (tableDetections : List Detection) (processing_mode : String) : Option Grid :=
  if tableDetections = [] then none
  else
    match processAll tableDetections processing_mode with
    | none => none
    | some tables => tables.head?

/-! ### Spec-side description of the enhanced cleanup

The specification words the enhanced post-processing as: drop rows that are
empty in every column, then drop columns empty in every remaining row, then
reindex contiguously from zero.  The following definitions follow those words
(not the source) so they can be compared with `enhancedClean` above. -/

/-- Row with at least one non-empty entry. -/
def rowNonempty (row : List String) : Bool :=
  row.any (fun s => s ≠ "")

/-- Spec cleanup, first pass: drop rows that are empty in every column. -/
def dropEmptyRows (g : Grid) : Grid :=
  g.filter rowNonempty

/-- Number of columns the cleanup considers: the widest row. -/
def gridWidth (g : Grid) : Nat :=
  (g.map List.length).foldl max 0

/-- Column `c` holds a non-empty entry in at least one row of `g`. -/
def colNonempty (g : Grid) (c : Nat) : Bool :=
  g.any (fun row => row.getD c "" ≠ "")

/-- Spec cleanup, second pass: drop columns empty in every remaining row;
keeping only the useful columns of each row also reindexes them from zero. -/
def dropEmptyCols (g : Grid) : Grid :=
  g.map (fun row =>
    (List.range (gridWidth g)).filterMap
      (fun c => if colNonempty g c then some (row.getD c "") else none))

/-- Enhanced cleanup as the specification words it: rows first, then columns,
then reindex (the list representation is positional, so dropping is already
reindexing). -/
def specEnhancedCleanup (g : Grid) : Grid :=
  dropEmptyCols (dropEmptyRows g)

/-! ### Image normalization (`preprocess_image`, source lines 33-59)

Pixel data is abstracted: a `PilImage` records the color mode, the size, the
bounding box of its non-white content (`none` for a uniformly white image,
the value `diff.getbbox()` returns), and the list of transformations applied
so far, which distinguishes a transformed image from the original.  Each PIL
library call may raise; which calls fail is an explicit oracle argument, and
a step that fails is modelled by `Except.error` carrying the value the local
variable `img` has at that moment — exactly what the `except` branch of the
source returns. -/

/-- Image transformation steps of `preprocess_image` that call into PIL and
may raise. -/
inductive PilOp
  | convert
  | crop
  | expand
  | thumbnail
  deriving DecidableEq, Repr

/-- Abstracted PIL image. -/
structure PilImage where
  colorMode : String
  width : Nat
  height : Nat
  /-- Bounding box `(left, top, right, bottom)` of the non-white content;
  `none` when the image is uniformly white. -/
  bbox : Option (Nat × Nat × Nat × Nat)
  /-- Transformations applied so far (modelling device standing for the pixel
  data; the original image has an empty list). -/
  ops : List String
  deriving DecidableEq, Repr

/-- Library call `img.convert('RGB')`. -/
def convertRGB (i : PilImage) : PilImage :=
  { i with colorMode := "RGB", ops := i.ops ++ ["convert"] }

/-- Library call `img.crop(bbox)`. -/
def cropTo (i : PilImage) (b : Nat × Nat × Nat × Nat) : PilImage :=
  { i with width := b.2.2.1 - b.1, height := b.2.2.2 - b.2.1,
           bbox := some (0, 0, b.2.2.1 - b.1, b.2.2.2 - b.2.1),
           ops := i.ops ++ ["crop"] }

/-- Library call `ImageOps.expand(img, border=20, fill='white')`. -/
def expandBorder (i : PilImage) : PilImage :=
  { i with width := i.width + 40, height := i.height + 40,
           bbox := i.bbox.map (fun b => (b.1 + 20, b.2.1 + 20, b.2.2.1 + 20, b.2.2.2 + 20)),
           ops := i.ops ++ ["expand"] }

/-- Library call `img.thumbnail((2000, 2000))`: proportional downscale so that
no dimension exceeds 2000 (called only under the `max(img.size) > 2000`
guard). -/
def thumbnailCap (i : PilImage) : PilImage :=
  let newW := if i.width ≥ i.height then 2000 else i.width * 2000 / i.height
  let newH := if i.width ≥ i.height then i.height * 2000 / i.width else 2000
  { i with width := newW, height := newH, ops := i.ops ++ ["thumbnail"] }

/-- Step of source lines 37-38: convert to RGB when not already RGB. -/
def stepConvert (fails : PilOp → Bool) (img : PilImage) : Except PilImage PilImage :=
  if img.colorMode ≠ "RGB" then
    if fails PilOp.convert then Except.error img else Except.ok (convertRGB img)
  else Except.ok img

/-- Step of source lines 41-50, run only in enhanced mode: crop to the
non-white bounding box when one exists, then add the 20-pixel white border. -/
def stepEnhance (mode : String) (fails : PilOp → Bool) (img : PilImage) :
    Except PilImage PilImage :=
  if mode = "enhanced" then
    match img.bbox with
    | some b =>
      if fails PilOp.crop then Except.error img
      else
        let cropped := cropTo img b
        if fails PilOp.expand then Except.error cropped
        else Except.ok (expandBorder cropped)
    | none =>
      if fails PilOp.expand then Except.error img
      else Except.ok (expandBorder img)
  else Except.ok img

/-- Step of source lines 53-54: cap the size at 2000 pixels. -/
def stepResize (fails : PilOp → Bool) (img : PilImage) : Except PilImage PilImage :=
  if max img.width img.height > 2000 then
    if fails PilOp.thumbnail then Except.error img else Except.ok (thumbnailCap img)
  else Except.ok img

/-- Embedding of `preprocess_image` (source lines 33-59): the three step
groups run inside one `try`; an exception anywhere makes the `except` branch
return the current value of the local variable `img` — which is the original
image only if no reassignment happened before the raise. -/
def preprocess_image (img : PilImage) (mode : String) (fails : PilOp → Bool) : PilImage :=
  match stepConvert fails img with
  | Except.error e => e
  | Except.ok i1 =>
    match stepEnhance mode fails i1 with
    | Except.error e => e
    | Except.ok i2 =>
      match stepResize fails i2 with
      | Except.error e => e
      | Except.ok i3 => i3

/-! ### Batch loop of `main` (source lines 174-217)

Per-file recognition involves the network, so a batch input is the list of
file names paired with the outcome `process_single_image` produced for that
file: `none` when the file failed to decode, errored, or recognized nothing,
`some grid` otherwise.  Tagging (`df["_来源文件"] = file.name`) appends the
provenance column after the table's own positional columns, and `pd.concat`
aligns columns by name — here the positional columns `0..w-1` plus the shared
provenance column — filling a missing column of a frame with missing values
(`none`). -/

/-- Table accumulated by the batch loop, tagged with its source file name. -/
structure TaggedTable where
  name : String
  table : Grid
  deriving DecidableEq, Repr

/-- Row of the combined batch result: values of the positional columns padded
to the common width (`none` where the contributing frame has no such column),
plus the provenance entry. -/
abbrev BatchRow := List (Option String) × String

/-- Loop of source lines 178-191: each file with a non-null table is tagged
and appended to the accumulator, in input order; files with a null result are
skipped. -/
def batchLoop : List (String × Option Grid) → List TaggedTable → List TaggedTable
  | [], acc => acc
  | (_, none) :: rest, acc => batchLoop rest acc
  | (n, some t) :: rest, acc => batchLoop rest (acc ++ [⟨n, t⟩])

/-- Number of positional columns of `pd.DataFrame(grid)`: the length of its
(rectangular) rows, 0 for an empty frame. -/
def tableWidth (t : Grid) : Nat :=
  (t.headD []).length

/-- Pads a row with missing values up to the common column count `w`. -/
def padRow (w : Nat) (row : List String) : List (Option String) :=
  row.map some ++ List.replicate (w - row.length) none

/-- Embedding of `pd.concat(all_data, ignore_index=True)` (source line 198)
for the accumulated frames: rows of every frame in accumulator order, each
aligned to the union of the positional columns and keeping its provenance
entry. -/
def pdConcat (ts : List TaggedTable) : List BatchRow :=
  let w := (ts.map (fun t => tableWidth t.table)).foldl max 0
  ts.flatMap (fun t => t.table.map (fun row => (padRow w row, t.name)))

/-- Batch outcome of `main` (source lines 174-217): run the per-file loop;
with an empty accumulator report no valid data (`none`, source line 217),
otherwise concatenate. -/
def mainBatch (files : List (String × Option Grid)) : Option (List BatchRow) :=
  let all := batchLoop files []
  if all.isEmpty then none else some (pdConcat all)

/-- Declarative description of the batch result, following the
specification's words: the successful files in input order, their rows
concatenated, every row padded to the union of the columns and tagged with
its source file. -/
def batchResultSpec (files : List (String × Option Grid)) : List BatchRow :=
  let succ := files.filterMap (fun p => p.2.map (fun t => TaggedTable.mk p.1 t))
  let w := (succ.map (fun t => tableWidth t.table)).foldl max 0
  succ.flatMap (fun t => t.table.map (fun row => (padRow w row, t.name)))

/-! ### Grid lemmas -/

/-- Rectangular grid of `nR` rows and `nC` columns. -/
def gridShape (g : Grid) (nR nC : Nat) : Prop :=
  g.length = nR ∧ ∀ row ∈ g, row.length = nC

theorem gridShape_mkGrid (nR nC : Nat) : gridShape (mkGrid nR nC) nR nC := by
  refine ⟨List.length_replicate _ _, fun row hrow => ?_⟩
  rw [List.eq_of_mem_replicate hrow, List.length_replicate]

theorem gridShape_setAt {g : Grid} {nR nC : Nat} (h : gridShape g nR nC)
    (r c : Nat) (t : String) : gridShape (setAt g r c t) nR nC := by
  obtain ⟨hlen, hrows⟩ := h
  unfold setAt
  by_cases hr : r < g.length
  · refine ⟨by rw [List.length_set]; exact hlen, fun row hrow => ?_⟩
    rcases List.mem_or_eq_of_mem_set hrow with hmem | heq
    · exact hrows row hmem
    · subst heq
      rw [List.length_set, List.getD_eq_getElem?_getD, List.getElem?_eq_getElem hr]
      exact hrows _ (List.getElem_mem hr)
  · rw [List.set_eq_of_length_le (Nat.le_of_not_lt hr)]
    exact ⟨hlen, hrows⟩

theorem getAt_setAt {g : Grid} {nR nC : Nat} (h : gridShape g nR nC)
    {r' c' : Nat} (hr' : r' < nR) (hc' : c' < nC) (r c : Nat) (t : String) :
    getAt (setAt g r c t) r' c' = if r = r' ∧ c = c' then t else getAt g r' c' := by
  obtain ⟨hlen, hrows⟩ := h
  unfold getAt setAt
  rw [List.getD_eq_getElem?_getD (g.set r _), List.getElem?_set]
  by_cases hrr : r = r'
  · subst hrr
    have hrb : r < g.length := hlen ▸ hr'
    have hrow : g.getD r [] = g[r] := by
      rw [List.getD_eq_getElem?_getD, List.getElem?_eq_getElem hrb]
      rfl
    have hcb : c' < (g[r] : List String).length := by
      rw [hrows _ (List.getElem_mem hrb)]; exact hc'
    rw [if_pos rfl, if_pos hrb, hrow, Option.getD_some,
      List.getD_eq_getElem?_getD (g[r].set c t), List.getElem?_set]
    by_cases hcc : c = c'
    · subst hcc
      rw [if_pos rfl, if_pos hcb, Option.getD_some, if_pos ⟨rfl, rfl⟩]
    · rw [if_neg hcc, if_neg (fun hand => hcc hand.2), List.getD_eq_getElem?_getD]
  · rw [if_neg hrr, if_neg (fun hand => hrr hand.1), ← List.getD_eq_getElem?_getD]

theorem gridShape_fillRow {nR nC : Nat} (r : Nat) (t : String) :
    ∀ (n c0 : Nat) (g : Grid), gridShape g nR nC → gridShape (fillRow r t c0 n g) nR nC
  | 0, _, _, h => h
  | n + 1, c0, g, h =>
    gridShape_fillRow r t n (c0 + 1) (setAt g r c0 t) (gridShape_setAt h r c0 t)

theorem getAt_fillRow {nR nC : Nat} {r' c' : Nat} (hr' : r' < nR) (hc' : c' < nC)
    (r : Nat) (t : String) :
    ∀ (n c0 : Nat) (g : Grid), gridShape g nR nC →
      getAt (fillRow r t c0 n g) r' c' =
        if r = r' ∧ c0 ≤ c' ∧ c' < c0 + n then t else getAt g r' c' := by
  intro n
  induction n with
  | zero =>
    intro c0 g _
    show getAt g r' c' = _
    rw [if_neg (by omega)]
  | succ n ih =>
    intro c0 g hg
    show getAt (fillRow r t (c0 + 1) n (setAt g r c0 t)) r' c' = _
    rw [ih (c0 + 1) _ (gridShape_setAt hg r c0 t),
      getAt_setAt hg hr' hc' r c0 t]
    split_ifs <;> first | rfl | (exfalso; omega)

theorem gridShape_fillRect {nR nC : Nat} (t : String) (c0 nc : Nat) :
    ∀ (n r0 : Nat) (g : Grid), gridShape g nR nC → gridShape (fillRect t c0 nc r0 n g) nR nC
  | 0, _, _, h => h
  | n + 1, r0, g, h =>
    gridShape_fillRect t c0 nc n (r0 + 1) (fillRow r0 t c0 nc g)
      (gridShape_fillRow r0 t nc c0 g h)

theorem getAt_fillRect {nR nC : Nat} {r' c' : Nat} (hr' : r' < nR) (hc' : c' < nC)
    (t : String) (c0 nc : Nat) :
    ∀ (n r0 : Nat) (g : Grid), gridShape g nR nC →
      getAt (fillRect t c0 nc r0 n g) r' c' =
        if r0 ≤ r' ∧ r' < r0 + n ∧ c0 ≤ c' ∧ c' < c0 + nc then t
        else getAt g r' c' := by
  intro n
  induction n with
  | zero =>
    intro r0 g _
    show getAt g r' c' = _
    rw [if_neg (by omega)]
  | succ n ih =>
    intro r0 g hg
    show getAt (fillRect t c0 nc (r0 + 1) n (fillRow r0 t c0 nc g)) r' c' = _
    rw [ih (r0 + 1) _ (gridShape_fillRow r0 t nc c0 g hg),
      getAt_fillRow hr' hc' r0 t nc c0 g hg]
    split_ifs <;> first | rfl | (exfalso; omega)

/-- Position `(r, c)` lies in the clipped span rectangle of `cell`: exactly
the positions the loop of source lines 89-91 writes for that cell. -/
def covers (nR nC : Nat) (cell : Cell) (r c : Nat) : Prop :=
  cell.rowTl.getD 0 ≤ r ∧ r < min (cell.rowTl.getD 0 + cell.rowSpan.getD 1) nR ∧
  cell.colTl.getD 0 ≤ c ∧ c < min (cell.colTl.getD 0 + cell.colSpan.getD 1) nC

instance (nR nC : Nat) (cell : Cell) (r c : Nat) : Decidable (covers nR nC cell r c) := by
  unfold covers; infer_instance

theorem gridShape_fillCell {nR nC : Nat} {g : Grid} (h : gridShape g nR nC)
    (cell : Cell) : gridShape (fillCell nR nC g cell) nR nC :=
  gridShape_fillRect _ _ _ _ _ g h

theorem getAt_fillCell {nR nC : Nat} {g : Grid} (hg : gridShape g nR nC)
    {r c : Nat} (hr : r < nR) (hc : c < nC) (cell : Cell) :
    getAt (fillCell nR nC g cell) r c =
      if covers nR nC cell r c then cell.text.getD "" else getAt g r c := by
  unfold fillCell covers
  rw [getAt_fillRect hr hc _ _ _ _ _ g hg]
  by_cases h : covers nR nC cell r c
  · unfold covers at h
    rw [if_pos (by omega), if_pos (by omega)]
  · unfold covers at h
    rw [if_neg (by omega), if_neg (by omega)]

theorem gridShape_foldl_fillCell {nR nC : Nat} :
    ∀ (cells : List Cell) (g : Grid), gridShape g nR nC →
      gridShape (cells.foldl (fillCell nR nC) g) nR nC
  | [], _, h => h
  | cell :: rest, g, h =>
    gridShape_foldl_fillCell rest (fillCell nR nC g cell) (gridShape_fillCell h cell)

theorem gridShape_fillGrid (nR nC : Nat) (cells : List Cell) :
    gridShape (fillGrid nR nC cells) nR nC :=
  gridShape_foldl_fillCell cells (mkGrid nR nC) (gridShape_mkGrid nR nC)

theorem getAt_foldl_of_not_covers {nR nC : Nat} {r c : Nat} (hr : r < nR) (hc : c < nC) :
    ∀ (cells : List Cell) (g : Grid), gridShape g nR nC →
      (∀ d ∈ cells, ¬ covers nR nC d r c) →
      getAt (cells.foldl (fillCell nR nC) g) r c = getAt g r c := by
  intro cells
  induction cells with
  | nil => intro g _ _; rfl
  | cons cell rest ih =>
    intro g hg hnone
    show getAt (rest.foldl (fillCell nR nC) (fillCell nR nC g cell)) r c = _
    rw [ih (fillCell nR nC g cell) (gridShape_fillCell hg cell)
        (fun d hd => hnone d (List.mem_cons_of_mem cell hd)),
      getAt_fillCell hg hr hc cell,
      if_neg (hnone cell (List.mem_cons_self cell rest))]

/-! ### Size-computation lemmas -/

theorem le_foldl_max (l : List Nat) : ∀ a : Nat, a ≤ l.foldl max a := by
  induction l with
  | nil => intro a; exact Nat.le_refl a
  | cons x xs ih =>
    intro a
    exact Nat.le_trans (Nat.le_max_left a x) (ih (max a x))

theorem foldl_max_of_mem (l : List Nat) :
    ∀ (a x : Nat), x ∈ l → x ≤ l.foldl max a := by
  induction l with
  | nil => intro _ x hx; cases hx
  | cons y ys ih =>
    intro a x hx
    rcases List.mem_cons.mp hx with rfl | hmem
    · exact Nat.le_trans (Nat.le_max_right a x) (le_foldl_max ys (max a x))
    · exact ih (max a y) x hmem

theorem rowEnds_of_all_some {cells : List Cell}
    (h : ∀ c ∈ cells, c.rowTl ≠ none) :
    rowEnds cells = some (cells.map (fun c => c.rowTl.getD 0 + c.rowSpan.getD 1)) := by
  induction cells with
  | nil => rfl
  | cons c cs ih =>
    have hc : c.rowTl ≠ none := h c (List.mem_cons_self c cs)
    obtain ⟨v, hv⟩ := Option.ne_none_iff_exists'.mp hc
    show rowEnds (c :: cs) = _
    unfold rowEnds rowEnd
    rw [hv, ih (fun d hd => h d (List.mem_cons_of_mem c hd))]
    simp [hv]

theorem colEnds_of_all_some {cells : List Cell}
    (h : ∀ c ∈ cells, c.colTl ≠ none) :
    colEnds cells = some (cells.map (fun c => c.colTl.getD 0 + c.colSpan.getD 1)) := by
  induction cells with
  | nil => rfl
  | cons c cs ih =>
    have hc : c.colTl ≠ none := h c (List.mem_cons_self c cs)
    obtain ⟨v, hv⟩ := Option.ne_none_iff_exists'.mp hc
    show colEnds (c :: cs) = _
    unfold colEnds colEnd
    rw [hv, ih (fun d hd => h d (List.mem_cons_of_mem c hd))]
    simp [hv]

theorem maxRowOf_eq_some {cells : List Cell} (hne : cells ≠ [])
    (h : ∀ c ∈ cells, c.rowTl ≠ none) :
    ∃ nR, maxRowOf cells = some nR ∧
      ∀ c ∈ cells, c.rowTl.getD 0 + c.rowSpan.getD 1 ≤ nR := by
  unfold maxRowOf
  rw [rowEnds_of_all_some h]
  cases cells with
  | nil => exact absurd rfl hne
  | cons c cs =>
    refine ⟨_, rfl, fun d hd => ?_⟩
    rcases List.mem_cons.mp hd with rfl | hmem
    · exact le_foldl_max _ _
    · exact foldl_max_of_mem _ _ _ (List.mem_map_of_mem _ hmem)

theorem maxColOf_eq_some {cells : List Cell} (hne : cells ≠ [])
    (h : ∀ c ∈ cells, c.colTl ≠ none) :
    ∃ nC, maxColOf cells = some nC ∧
      ∀ c ∈ cells, c.colTl.getD 0 + c.colSpan.getD 1 ≤ nC := by
  unfold maxColOf
  rw [colEnds_of_all_some h]
  cases cells with
  | nil => exact absurd rfl hne
  | cons c cs =>
    refine ⟨_, rfl, fun d hd => ?_⟩
    rcases List.mem_cons.mp hd with rfl | hmem
    · exact le_foldl_max _ _
    · exact foldl_max_of_mem _ _ _ (List.mem_map_of_mem _ hmem)

/-- C9 — for every detection whose cells each carry explicit `RowTl` and
`ColTl` fields, the clipping `min(row_start + row_span, max_row)` (and its
column analogue) never truncates a span, because `max_row`/`max_col` are the
maxima of exactly those sums over the same cells; consequently every position
the grid-fill loop writes for any of the cells lies inside the allocated
`max_row × max_col` grid. -/
theorem span_clipping_is_redundant (cells : List Cell) (cell : Cell)
    (hmem : cell ∈ cells)
    (hall : ∀ c ∈ cells, c.rowTl ≠ none ∧ c.colTl ≠ none) :
    ∃ nR nC, maxRowOf cells = some nR ∧ maxColOf cells = some nC ∧
      min (cell.rowTl.getD 0 + cell.rowSpan.getD 1) nR
        = cell.rowTl.getD 0 + cell.rowSpan.getD 1 ∧
      min (cell.colTl.getD 0 + cell.colSpan.getD 1) nC
        = cell.colTl.getD 0 + cell.colSpan.getD 1 ∧
      ∀ r c, covers nR nC cell r c → r < nR ∧ c < nC := by
  have hne : cells ≠ [] := List.ne_nil_of_mem hmem
  obtain ⟨nR, hnR, hboundR⟩ := maxRowOf_eq_some hne (fun c hc => (hall c hc).1)
  obtain ⟨nC, hnC, hboundC⟩ := maxColOf_eq_some hne (fun c hc => (hall c hc).2)
  refine ⟨nR, nC, hnR, hnC,
    Nat.min_eq_left (hboundR cell hmem), Nat.min_eq_left (hboundC cell hmem),
    fun r c hcov => ?_⟩
  unfold covers at hcov
  omega

/-- Concrete instantiation of `span_clipping_is_redundant`: two explicit
cells, spans untruncated and writes in bounds. -/
theorem span_clipping_is_redundant_witness :
    min ((Cell.mk (some 1) (some 0) (some 2) (some 1) (some "x")).rowTl.getD 0 +
          (Cell.mk (some 1) (some 0) (some 2) (some 1) (some "x")).rowSpan.getD 1) 3 = 3 ∧
    maxRowOf [Cell.mk (some 0) (some 0) none none (some "h"),
              Cell.mk (some 1) (some 0) (some 2) (some 1) (some "x")] = some 3 := by
  obtain ⟨nR, nC, hnR, hnC, hminR, _, _⟩ :=
    span_clipping_is_redundant
      [Cell.mk (some 0) (some 0) none none (some "h"),
       Cell.mk (some 1) (some 0) (some 2) (some 1) (some "x")]
      (Cell.mk (some 1) (some 0) (some 2) (some 1) (some "x"))
      (by decide)
      (by decide)
  have hR : nR = 3 := by
    have h3 : maxRowOf [Cell.mk (some 0) (some 0) none none (some "h"),
        Cell.mk (some 1) (some 0) (some 2) (some 1) (some "x")] = some 3 := by decide
    exact Option.some.inj (hnR.symm.trans h3)
  rw [hR] at hminR hnR
  exact ⟨hminR.trans (by decide), hnR⟩

/-- C5 — for every non-empty cell list whose size computation succeeds (all
cells carry `RowTl`/`ColTl`, so `max_row`/`max_col` are the maxima of
`row_start + row_span` resp. `col_start + col_span`), the table
`process_table_data` produces in raw mode is the filled grid, with exactly
`max_row` rows, each of exactly `max_col` columns. -/
theorem raw_mode_dimensions (cells : List Cell) (nR nC : Nat)
    (hnR : maxRowOf cells = some nR) (hnC : maxColOf cells = some nC) :
    process_table_data [Detection.mk cells] "raw" = some (fillGrid nR nC cells) ∧
    (fillGrid nR nC cells).length = nR ∧
    ∀ row ∈ fillGrid nR nC cells, row.length = nC := by
  have hne : cells ≠ [] := by
    intro h
    rw [h] at hnR
    exact Option.noConfusion hnR
  obtain ⟨hlen, hrows⟩ := gridShape_fillGrid nR nC cells
  refine ⟨?_, hlen, hrows⟩
  unfold process_table_data
  rw [if_neg (List.cons_ne_nil _ _)]
  have hall : processAll [Detection.mk cells] "raw" = some [fillGrid nR nC cells] := by
    unfold processAll
    rw [if_neg hne]
    unfold processDetection
    rw [hnR, hnC]
    rfl
  rw [hall]
  rfl

/-- Concrete instantiation of `raw_mode_dimensions`: a single 2-row, 3-column
spanning cell produces a 2 × 3 raw table. -/
theorem raw_mode_dimensions_witness :
    maxRowOf [Cell.mk (some 0) (some 0) (some 2) (some 3) (some "w")] = some 2 ∧
    process_table_data [Detection.mk [Cell.mk (some 0) (some 0) (some 2) (some 3) (some "w")]] "raw"
      = some (fillGrid 2 3 [Cell.mk (some 0) (some 0) (some 2) (some 3) (some "w")]) ∧
    (fillGrid 2 3 [Cell.mk (some 0) (some 0) (some 2) (some 3) (some "w")]).length = 2 ∧
    ∀ row ∈ fillGrid 2 3 [Cell.mk (some 0) (some 0) (some 2) (some 3) (some "w")],
      row.length = 3 :=
  ⟨by decide,
    raw_mode_dimensions [Cell.mk (some 0) (some 0) (some 2) (some 3) (some "w")] 2 3
      (by decide) (by decide)⟩

/-- C4 — when a grid position `(r, c)` is covered by the spans of two or more
cells, the text the reconstructed grid stores at `(r, c)` is the text of the
covering cell that occurs latest in the input order. -/
theorem overlap_last_write_wins (pre post : List Cell) (cell : Cell) (nR nC r c : Nat)
    (_hnR : maxRowOf (pre ++ cell :: post) = some nR)
    (_hnC : maxColOf (pre ++ cell :: post) = some nC)
    (hcov : covers nR nC cell r c)
    (_hearlier : ∃ d ∈ pre, covers nR nC d r c)
    (hlater : ∀ d ∈ post, ¬ covers nR nC d r c) :
    getAt (fillGrid nR nC (pre ++ cell :: post)) r c = cell.text.getD "" := by
  have hr : r < nR := by
    have := hcov.2.1
    omega
  have hc : c < nC := by
    have := hcov.2.2.2
    omega
  unfold fillGrid
  rw [List.foldl_append, List.foldl_cons]
  have hg1 : gridShape (pre.foldl (fillCell nR nC) (mkGrid nR nC)) nR nC :=
    gridShape_foldl_fillCell pre (mkGrid nR nC) (gridShape_mkGrid nR nC)
  rw [getAt_foldl_of_not_covers hr hc post _ (gridShape_fillCell hg1 cell) hlater,
    getAt_fillCell hg1 hr hc cell, if_pos hcov]

/-- Concrete instantiation of `overlap_last_write_wins`: two cells cover
position `(0, 0)`; the later one's text is stored. -/
theorem overlap_last_write_wins_witness :
    covers 2 1 (Cell.mk (some 0) (some 0) (some 1) (some 1) (some "second")) 0 0 ∧
    getAt (fillGrid 2 1
        [Cell.mk (some 0) (some 0) (some 1) (some 1) (some "first"),
         Cell.mk (some 0) (some 0) (some 1) (some 1) (some "second"),
         Cell.mk (some 1) (some 0) (some 1) (some 1) (some "below")]) 0 0 = "second" :=
  ⟨by decide,
    overlap_last_write_wins
      [Cell.mk (some 0) (some 0) (some 1) (some 1) (some "first")]
      [Cell.mk (some 1) (some 0) (some 1) (some 1) (some "below")]
      (Cell.mk (some 0) (some 0) (some 1) (some 1) (some "second"))
      2 1 0 0 (by decide) (by decide) (by decide)
      ⟨Cell.mk (some 0) (some 0) (some 1) (some 1) (some "first"), by decide, by decide⟩
      (by decide)⟩

/-! ### Detection-selection and error-path lemmas -/

theorem processAll_of_all_empty : ∀ (dets : List Detection) (mode : String),
    (∀ d ∈ dets, d.cells = []) → processAll dets mode = some []
  | [], _, _ => rfl
  | d :: rest, mode, hall => by
    unfold processAll
    rw [if_pos (hall d (List.mem_cons_self d rest))]
    exact processAll_of_all_empty rest mode (fun e he => hall e (List.mem_cons_of_mem d he))

/-- C2 (amended) — `process_table_data` returns `None` when the response has
no table detections, or when every detection it does have carries no cells. -/
theorem empty_detections_yield_none (dets : List Detection) (mode : String)
    (h : dets = [] ∨ ∀ d ∈ dets, d.cells = []) :
    process_table_data dets mode = none := by
  unfold process_table_data
  by_cases hd : dets = []
  · rw [if_pos hd]
  · rw [if_neg hd]
    rcases h with rfl | hall
    · exact absurd rfl hd
    · rw [processAll_of_all_empty dets mode hall]
      rfl

/-- Concrete instantiation of `empty_detections_yield_none`: two cell-less
detections. -/
theorem empty_detections_yield_none_witness :
    process_table_data [Detection.mk [], Detection.mk []] "enhanced" = none :=
  empty_detections_yield_none [Detection.mk [], Detection.mk []] "enhanced"
    (Or.inr (by decide))

/-- C2 (counterexample) — a response whose first detection has no cells but
whose second detection does is not answered with `None`: the loop skips the
cell-less detection (`continue`) and returns the table of the second one, so
the claim "the first detection has no cells → `None`, even when a later
detection has cells" is false on the code. -/
theorem later_detection_with_cells_is_used :
    process_table_data
        [Detection.mk [], Detection.mk [Cell.mk (some 0) (some 0) none none (some "X")]]
        "raw" = some [["X"]] ∧
    process_table_data
        [Detection.mk [], Detection.mk [Cell.mk (some 0) (some 0) none none (some "X")]]
        "raw" ≠ none := by
  constructor
  · decide
  · decide

theorem rowEnds_none_of_missing : ∀ (cells : List Cell) (cell : Cell),
    cell ∈ cells → cell.rowTl = none → rowEnds cells = none
  | c :: cs, cell, hmem, hmiss => by
    unfold rowEnds
    rcases List.mem_cons.mp hmem with rfl | hmem'
    · rw [show rowEnd cell = none from by unfold rowEnd; rw [hmiss]; rfl]
    · rw [rowEnds_none_of_missing cs cell hmem' hmiss]
      cases rowEnd c <;> rfl

theorem colEnds_none_of_missing : ∀ (cells : List Cell) (cell : Cell),
    cell ∈ cells → cell.colTl = none → colEnds cells = none
  | c :: cs, cell, hmem, hmiss => by
    unfold colEnds
    rcases List.mem_cons.mp hmem with rfl | hmem'
    · rw [show colEnd cell = none from by unfold colEnd; rw [hmiss]; rfl]
    · rw [colEnds_none_of_missing cs cell hmem' hmiss]
      cases colEnd c <;> rfl

theorem processDetection_none_of_malformed (cells : List Cell) (mode : String)
    (cell : Cell) (hmem : cell ∈ cells)
    (hmiss : cell.rowTl = none ∨ cell.colTl = none) :
    processDetection cells mode = none := by
  unfold processDetection
  rcases hmiss with h | h
  · rw [show maxRowOf cells = none from by
      unfold maxRowOf; rw [rowEnds_none_of_missing cells cell hmem h]]
  · have hcol : maxColOf cells = none := by
      unfold maxColOf; rw [colEnds_none_of_missing cells cell hmem h]
    cases hR : maxRowOf cells with
    | none => rfl
    | some nR => rw [hcol]

theorem processAll_none_of_malformed : ∀ (dets : List Detection) (mode : String)
    (d : Detection), d ∈ dets → d.cells ≠ [] →
    (∃ cell ∈ d.cells, cell.rowTl = none ∨ cell.colTl = none) →
    processAll dets mode = none
  | d' :: rest, mode, d, hd, hne, hbad => by
    unfold processAll
    rcases List.mem_cons.mp hd with rfl | hmem
    · obtain ⟨cell, hcell, hmiss⟩ := hbad
      rw [if_neg hne, processDetection_none_of_malformed d.cells mode cell hcell hmiss]
    · by_cases h' : d'.cells = []
      · rw [if_pos h']
        exact processAll_none_of_malformed rest mode d hmem hne hbad
      · rw [if_neg h', processAll_none_of_malformed rest mode d hmem hne hbad]
        cases processDetection d'.cells mode <;> rfl

/-- C10 — `process_table_data` is a total function into `Option` (the `try`
wraps the whole body, so nothing escapes), and on a malformed input — a
detection with cells where some cell is missing its `RowTl` or `ColTl` key,
which makes the size computation raise — the caught exception makes it
return `None`, the same value as the "no table found" outcome. -/
theorem malformed_cell_yields_none (dets : List Detection) (mode : String)
    (d : Detection) (cell : Cell) (hd : d ∈ dets) (hcell : cell ∈ d.cells)
    (hmiss : cell.rowTl = none ∨ cell.colTl = none) :
    process_table_data dets mode = none := by
  have hne : dets ≠ [] := List.ne_nil_of_mem hd
  have hcne : d.cells ≠ [] := List.ne_nil_of_mem hcell
  unfold process_table_data
  rw [if_neg hne,
    processAll_none_of_malformed dets mode d hd hcne ⟨cell, hcell, hmiss⟩]

/-- Concrete instantiation of `malformed_cell_yields_none`: one detection
whose only cell is missing `RowTl`. -/
theorem malformed_cell_yields_none_witness :
    process_table_data [Detection.mk [Cell.mk none (some 0) none none (some "t")]]
      "raw" = none :=
  malformed_cell_yields_none
    [Detection.mk [Cell.mk none (some 0) none none (some "t")]] "raw"
    (Detection.mk [Cell.mk none (some 0) none none (some "t")])
    (Cell.mk none (some 0) none none (some "t"))
    (by decide) (by decide) (Or.inl rfl)

/-! ### Batch lemmas -/

theorem batchLoop_eq : ∀ (files : List (String × Option Grid)) (acc : List TaggedTable),
    batchLoop files acc =
      acc ++ files.filterMap (fun p => p.2.map (fun t => TaggedTable.mk p.1 t))
  | [], acc => by simp [batchLoop]
  | (n, none) :: rest, acc => by
    show batchLoop rest acc = _
    rw [batchLoop_eq rest acc]
    simp [List.filterMap_cons]
  | (n, some t) :: rest, acc => by
    show batchLoop rest (acc ++ [TaggedTable.mk n t]) = _
    rw [batchLoop_eq rest (acc ++ [TaggedTable.mk n t])]
    simp [List.filterMap_cons]

/-- C3 — the batch result is `None` exactly when no file yielded a non-null
table; otherwise it is the row-wise concatenation, in input-file order, of
the per-file tables, each row tagged with its source file and padded with
empty values up to the union of the positional columns. -/
theorem batch_result_spec (files : List (String × Option Grid)) :
    (mainBatch files = none ↔ ∀ p ∈ files, p.2 = none) ∧
    ∀ rows, mainBatch files = some rows → rows = batchResultSpec files := by
  have hloop : batchLoop files [] =
      files.filterMap (fun p => p.2.map (fun t => TaggedTable.mk p.1 t)) := by
    rw [batchLoop_eq files [], List.nil_append]
  have hmain : mainBatch files =
      if (files.filterMap (fun p => p.2.map (fun t => TaggedTable.mk p.1 t))).isEmpty
      then none
      else some (pdConcat (files.filterMap (fun p => p.2.map (fun t => TaggedTable.mk p.1 t)))) := by
    unfold mainBatch
    rw [hloop]
  constructor
  · rw [hmain]
    by_cases h : (files.filterMap (fun p => p.2.map (fun t => TaggedTable.mk p.1 t))).isEmpty
    · rw [if_pos h]
      constructor
      · intro _ p hp
        have hnil := List.isEmpty_iff.mp h
        have hmap := List.filterMap_eq_nil_iff.mp hnil p hp
        exact Option.map_eq_none'.mp hmap
      · intro _
        rfl
    · rw [if_neg h]
      constructor
      · intro hcontra
        exact Option.noConfusion hcontra
      · intro hall
        exfalso
        apply h
        rw [List.isEmpty_iff, List.filterMap_eq_nil_iff]
        intro p hp
        rw [hall p hp]
        rfl
  · intro rows hrows
    rw [hmain] at hrows
    by_cases h : (files.filterMap (fun p => p.2.map (fun t => TaggedTable.mk p.1 t))).isEmpty
    · rw [if_pos h] at hrows
      exact Option.noConfusion hrows
    · rw [if_neg h] at hrows
      rw [← Option.some.inj hrows]
      rfl

/-- Concrete instantiation of `batch_result_spec`: three files, the middle
one failed, the two successes have different widths. -/
theorem batch_result_spec_witness :
    (mainBatch [("a.png", some [["x", "y"]]), ("b.png", none), ("c.png", some [["z"]])]
        = none ↔
      ∀ p ∈ [("a.png", some [["x", "y"]]), ("b.png", none), ("c.png", some [["z"]])],
        p.2 = none) ∧
    [([some "x", some "y"], "a.png"), ([some "z", none], "c.png")]
      = batchResultSpec
          [("a.png", some [["x", "y"]]), ("b.png", none), ("c.png", some [["z"]])] :=
  ⟨(batch_result_spec
      [("a.png", some [["x", "y"]]), ("b.png", none), ("c.png", some [["z"]])]).1,
   (batch_result_spec
      [("a.png", some [["x", "y"]]), ("b.png", none), ("c.png", some [["z"]])]).2
      [([some "x", some "y"], "a.png"), ([some "z", none], "c.png")] (by decide)⟩

/-! ### Idempotence of the enhanced cleanup -/

theorem filterMap_if_eq_map_filter (l : List Nat) (p : Nat → Bool) (f : Nat → String) :
    (l.filterMap (fun c => if p c then some (f c) else none)) = (l.filter p).map f := by
  induction l with
  | nil => rfl
  | cons x xs ih =>
    by_cases h : p x
    · simp [List.filterMap_cons, List.filter_cons, h, ih]
    · simp [List.filterMap_cons, List.filter_cons, h, ih]

theorem map_getD_range (l : List String) :
    (List.range l.length).map (fun i => l.getD i "") = l := by
  induction l with
  | nil => rfl
  | cons x xs ih =>
    have hcomp : ((fun i => (x :: xs).getD i "") ∘ Nat.succ) = fun i => xs.getD i "" := by
      funext i
      exact List.getD_cons_succ
    rw [List.length_cons, List.range_succ_eq_map, List.map_cons, List.map_map, hcomp, ih]
    rfl

theorem foldl_max_of_const : ∀ (l : List Nat) (k : Nat), (∀ a ∈ l, a = k) → l.foldl max k = k
  | [], _, _ => rfl
  | x :: xs, k, h => by
    have hx : x = k := h x (List.mem_cons_self x xs)
    show List.foldl max (max k x) xs = k
    rw [hx, Nat.max_self]
    exact foldl_max_of_const xs k (fun a ha => h a (List.mem_cons_of_mem x ha))

theorem gridWidth_of_const_lengths (g : Grid) (k : Nat) (hne : g ≠ [])
    (h : ∀ row ∈ g, row.length = k) : gridWidth g = k := by
  unfold gridWidth
  cases g with
  | nil => exact absurd rfl hne
  | cons r rs =>
    rw [List.map_cons, List.foldl_cons, h r (List.mem_cons_self r rs), Nat.zero_max]
    exact foldl_max_of_const _ k (fun a ha => by
      obtain ⟨row, hrow, rfl⟩ := List.mem_map.mp ha
      exact h row (List.mem_cons_of_mem r hrow))

theorem length_le_gridWidth (g : Grid) (row : List String) (h : row ∈ g) :
    row.length ≤ gridWidth g :=
  foldl_max_of_mem _ _ _ (List.mem_map_of_mem _ h)

theorem dropEmptyCols_eq_map (g : Grid) :
    dropEmptyCols g = g.map (fun row =>
      ((List.range (gridWidth g)).filter (colNonempty g)).map (fun c => row.getD c "")) := by
  unfold dropEmptyCols
  exact List.map_congr_left (fun row _ => filterMap_if_eq_map_filter _ _ _)

theorem specEnhancedCleanup_second_pass_fixed (g2 : Grid)
    (hrow2 : ∀ row' ∈ g2, rowNonempty row' = true)
    (hcols2 : ∀ c ∈ List.range (gridWidth g2), colNonempty g2 c = true)
    (hwidth2 : ∀ row' ∈ g2, row'.length = gridWidth g2) :
    specEnhancedCleanup g2 = g2 := by
  unfold specEnhancedCleanup
  rw [show dropEmptyRows g2 = g2 from List.filter_eq_self.mpr hrow2,
    dropEmptyCols_eq_map,
    show (List.range (gridWidth g2)).filter (colNonempty g2) = List.range (gridWidth g2)
      from List.filter_eq_self.mpr hcols2]
  calc g2.map (fun row' => (List.range (gridWidth g2)).map (fun c => row'.getD c ""))
      = g2.map id := List.map_congr_left (fun row' h => by
          rw [← hwidth2 row' h]
          exact map_getD_range row')
    _ = g2 := List.map_id g2

theorem specEnhancedCleanup_idem_of (g : Grid) :
    specEnhancedCleanup (specEnhancedCleanup g) = specEnhancedCleanup g := by
  have hmap : specEnhancedCleanup g = (dropEmptyRows g).map (fun row =>
      ((List.range (gridWidth (dropEmptyRows g))).filter (colNonempty (dropEmptyRows g))).map
        (fun c => row.getD c "")) := by
    unfold specEnhancedCleanup
    exact dropEmptyCols_eq_map (dropEmptyRows g)
  rw [hmap]
  set g1 := dropEmptyRows g with hg1
  set ks := (List.range (gridWidth g1)).filter (colNonempty g1) with hks
  set g2 := g1.map (fun row => ks.map (fun c => row.getD c "")) with hg2
  have hrow1 : ∀ row ∈ g1, rowNonempty row = true := by
    intro row h
    exact (List.mem_filter.mp h).2
  have hrow2 : ∀ row' ∈ g2, rowNonempty row' = true := by
    intro row' hrow'
    obtain ⟨row, hrowg1, rfl⟩ := List.mem_map.mp hrow'
    have hne := hrow1 row hrowg1
    unfold rowNonempty at hne ⊢
    simp only [List.any_eq_true, decide_eq_true_eq] at hne ⊢
    obtain ⟨s, hs, hsne⟩ := hne
    obtain ⟨i, hi, rfl⟩ := List.mem_iff_getElem.mp hs
    refine ⟨row[i], ?_, hsne⟩
    rw [List.mem_map]
    refine ⟨i, ?_, ?_⟩
    · rw [hks, List.mem_filter, List.mem_range]
      refine ⟨Nat.lt_of_lt_of_le hi (length_le_gridWidth g1 row hrowg1), ?_⟩
      unfold colNonempty
      simp only [List.any_eq_true, decide_eq_true_eq]
      refine ⟨row, hrowg1, ?_⟩
      rw [List.getD_eq_getElem?_getD, List.getElem?_eq_getElem hi]
      exact hsne
    · rw [List.getD_eq_getElem?_getD, List.getElem?_eq_getElem hi]
      rfl
  by_cases hempty : g2 = []
  · rw [hempty]
    rfl
  · have hwidth2 : ∀ row' ∈ g2, row'.length = ks.length := by
      intro row' h
      obtain ⟨row, _, rfl⟩ := List.mem_map.mp h
      exact List.length_map ks _
    have hw2 : gridWidth g2 = ks.length :=
      gridWidth_of_const_lengths g2 ks.length hempty hwidth2
    have hcols2 : ∀ c ∈ List.range (gridWidth g2), colNonempty g2 c = true := by
      intro c hc
      rw [hw2, List.mem_range] at hc
      have hcks : ks[c] ∈ ks := List.getElem_mem hc
      have hcol1 := (List.mem_filter.mp hcks).2
      unfold colNonempty at hcol1 ⊢
      simp only [List.any_eq_true, decide_eq_true_eq] at hcol1 ⊢
      obtain ⟨row, hrow, hval⟩ := hcol1
      refine ⟨ks.map (fun c' => row.getD c' ""), List.mem_map_of_mem _ hrow, ?_⟩
      have hlt : c < (ks.map (fun c' => row.getD c' "")).length := by
        rw [List.length_map]
        exact hc
      rw [List.getD_eq_getElem?_getD, List.getElem?_eq_getElem hlt, Option.getD_some,
        List.getElem_map]
      exact hval
    exact specEnhancedCleanup_second_pass_fixed g2 hrow2 hcols2
      (fun row' h => (hwidth2 row' h).trans hw2.symm)

/-- C8 — the enhanced-mode cleanup is idempotent: running it a second time
removes nothing further.  This holds both for the cleanup the code actually
performs (`dropna` twice plus `reset_index`, which on string-valued grids is
`enhancedClean`) and for the cleanup as the claim words it (drop fully-empty
rows, drop fully-empty columns, reindex: `specEnhancedCleanup`), on every
grid — in particular on every output of enhanced-mode reconstruction. -/
theorem enhanced_cleanup_idempotent (g : Grid) :
    enhancedClean (enhancedClean g) = enhancedClean g ∧
    specEnhancedCleanup (specEnhancedCleanup g) = specEnhancedCleanup g := by
  constructor
  · unfold enhancedClean
    exact List.filter_eq_self.mpr (fun row h => (List.mem_filter.mp h).2)
  · exact specEnhancedCleanup_idem_of g

/-! ### Concrete evaluations -/

/-- C7 — the documented example: cells
`[{0,0,1,2,"Name"}, {0,2,1,1,"Age"}, {1,0,1,1,"Ann"}, {1,1,1,1,"30"},
{1,2,1,1,""}]` reconstruct in raw mode to the rows
`["Name","Name","Age"]` and `["Ann","30",""]`, and enhanced mode returns the
same table. -/
theorem documented_example_reconstruction :
    process_table_data
        [Detection.mk
          [Cell.mk (some 0) (some 0) (some 1) (some 2) (some "Name"),
           Cell.mk (some 0) (some 2) (some 1) (some 1) (some "Age"),
           Cell.mk (some 1) (some 0) (some 1) (some 1) (some "Ann"),
           Cell.mk (some 1) (some 1) (some 1) (some 1) (some "30"),
           Cell.mk (some 1) (some 2) (some 1) (some 1) (some "")]] "raw"
      = some [["Name", "Name", "Age"], ["Ann", "30", ""]] ∧
    process_table_data
        [Detection.mk
          [Cell.mk (some 0) (some 0) (some 1) (some 2) (some "Name"),
           Cell.mk (some 0) (some 2) (some 1) (some 1) (some "Age"),
           Cell.mk (some 1) (some 0) (some 1) (some 1) (some "Ann"),
           Cell.mk (some 1) (some 1) (some 1) (some 1) (some "30"),
           Cell.mk (some 1) (some 2) (some 1) (some 1) (some "")]] "enhanced"
      = some [["Name", "Name", "Age"], ["Ann", "30", ""]] := by
  constructor
  · decide
  · decide

/-- C1 (code-bug evidence) — a grid with a fully-empty middle row: the
enhanced-mode result of `process_table_data` keeps that row, because
`dropna` removes only `NaN` values and every entry is a string, while the
behavior the claim (and the code's own comment, source line 98) describes —
`specEnhancedCleanup` — removes it. -/
theorem enhanced_mode_keeps_empty_row :
    process_table_data
        [Detection.mk [Cell.mk (some 0) (some 0) none none (some "a"),
                       Cell.mk (some 2) (some 0) none none (some "b")]] "enhanced"
      = some [["a"], [""], ["b"]] ∧
    specEnhancedCleanup [["a"], [""], ["b"]] = [["a"], ["b"]] := by
  constructor
  · decide
  · decide

/-- C6 (code-bug evidence) — a grayscale 3000 × 1000 image processed in
default mode, where the resize call raises after the RGB conversion already
replaced the local variable `img`: the `except` branch returns the
partially-transformed (RGB-converted) image, which differs from the original
unmodified input that the claim (and the code's own comment, source line 59)
says is returned. -/
theorem preprocess_failure_returns_partial :
    preprocess_image (PilImage.mk "L" 3000 1000 none []) "default"
        (fun op => decide (op = PilOp.thumbnail))
      = PilImage.mk "RGB" 3000 1000 none ["convert"] ∧
    PilImage.mk "RGB" 3000 1000 none ["convert"] ≠ PilImage.mk "L" 3000 1000 none [] := by
  constructor
  · decide
  · decide

end TableProcessor
